import Mathlib

/-!
# goscore: aggregation of a PMML random forest (`random_forest.go`)

Shallow embedding of `RandomForest.LabelScores`, `Score`,
`LabelScoresConcurrently` and `ScoreConcurrently`.

Modelling conventions:

* A Go function returning `(value, error)` returns a pair `α × Option Err`;
  `none` is the `nil` error.  Both components are always present, as in Go.
* `Node.TraverseTree` and `strconv.FormatFloat(·, 'f', -1, 64)` are not part of
  `random_forest.go`; every definition takes them as the parameters
  `TraverseTree` and `FormatFloat`.  `F` is the type of leaf scores.
* `map[string]float64` is an association list with at most one entry per key.
  A vote count is a `float64` that starts at `0` and only grows by `++`; every
  such value is an integer, exact in `float64` below `2^53`, which no slice of
  trees can reach, so counts are `Nat`.
* The final `float64` quotient is kept as the exact rational it is rounded from,
  with the IEEE cases `0/0 = NaN` and `x/0 = +Inf` explicit (`GoFloat`);
  `GoFloat.value` is the rounded `float64` itself.
* The concurrent variant is parameterised by the arrival order: the list of
  trees in the order in which their goroutines send on the channel.
-/

namespace goscore

/-! ## Data model -/

/-- RandomForest - PMML Random Forest (the `Trees` slice; `XMLName` plays no role). -/
structure RandomForest (Node : Type) where
  Trees : List Node

/-- A `map[string]float64` holding vote counts. -/
abbrev Tally := List (String × Nat)

/-- Result of a `float64` division of two vote counts. -/
inductive GoFloat where
  | nan : GoFloat
  | posInf : GoFloat
  | fin (q : ℚ) : GoFloat
  deriving DecidableEq

/-- The message a tree's goroutine sends on the channel. -/
structure rfResult (Err : Type) where
  ErrorName : Option Err
  Score : String

/-! ## Go map operations -/

/-- Presence test with value: the two-result form `v, ok := m[k]`. -/
def Tally.get? : Tally → String → Option Nat
  | [], _ => none
  | (k', v) :: rest, k => if k' = k then some v else Tally.get? rest k

/-- Index expression `m[k]`: the zero value when the key is absent. -/
def Tally.lookup (m : Tally) (k : String) : Nat :=
  (m.get? k).getD 0

/-- Assignment `m[k] = v`. -/
def Tally.set : Tally → String → Nat → Tally
  | [], k, v => [(k, v)]
  | (k', v') :: rest, k, v =>
    if k' = k then (k', v) :: rest else (k', v') :: Tally.set rest k v

/-- Statement `m[k]++`, that is `m[k] = m[k] + 1`. -/
def Tally.incr (m : Tally) (k : String) : Tally :=
  m.set k (m.lookup k + 1)

/-- The loop `allCount := 0.0; for _, value := range m { allCount += value }`,
run over the entries in stored order. -/
def Tally.sumValues (m : Tally) : Nat :=
  m.foldl (fun allCount kv => allCount + kv.2) 0

/-- Keys stored in a map, in stored order. -/
def Tally.keys (m : Tally) : List String := m.map Prod.fst

/-- Tally obtained from `scores` by `scores[k]++` for each `k` of `keys`, in order. -/
def castVotes (scores : Tally) (keys : List String) : Tally :=
  keys.foldl Tally.incr scores

/-- Division `a / b` of two counts in `float64`. -/
def fdiv (a b : Nat) : GoFloat :=
  if b = 0 then (if a = 0 then GoFloat.nan else GoFloat.posInf)
  else GoFloat.fin ((a : ℚ) / (b : ℚ))

/-! ## The `float64` a quotient denotes -/

/-- Rounding of a rational to the nearest integer, a tie going to the even one. -/
def roundHalfEven (x : ℚ) : ℤ :=
  if x - (⌊x⌋ : ℚ) < 1 / 2 then ⌊x⌋
  else if 1 / 2 < x - (⌊x⌋ : ℚ) then ⌊x⌋ + 1
  else if ⌊x⌋ % 2 = 0 then ⌊x⌋ else ⌊x⌋ + 1

/-- The `float64` nearest to a non-negative rational `q` (round to nearest, ties to
even, 53-bit significand), as a rational: `q` is scaled by a power of two into
`[2^52, 2^53)`, rounded to an integer and scaled back.  The exponent range is not
modelled: a quotient of two counts below `2^53` lies in `[2^-53, 2^53]`, far from
overflow and from the subnormal numbers. -/
def roundFloat64 (q : ℚ) : ℚ :=
  if q ≤ 0 then 0
  else (roundHalfEven (q / (2 : ℚ) ^ (Int.log 2 q - 52)) : ℚ) * (2 : ℚ) ^ (Int.log 2 q - 52)

/-- The number a `float64` division result is, when it is one: `fin q` is the
`float64` nearest to the exact quotient `q`. -/
def GoFloat.value : GoFloat → Option ℚ
  | GoFloat.nan => none
  | GoFloat.posInf => none
  | GoFloat.fin q => some (roundFloat64 q)

/-! ## Sequential aggregation -/

section Code

variable {Node Features Err F : Type}

/-- The `for _, tree := range rf.Trees` loop of `LabelScores`, started with the
tally `scores`. -/
def labelScoresLoop (TraverseTree : Node → Features → F × Option Err)
    (FormatFloat : F → String) (features : Features) :
    List Node → Tally → Tally × Option Err
  | [], scores => (scores, none)
  | tree :: rest, scores =>
    match TraverseTree tree features with
    | (_, some err) => (scores, some err)
    | (score, none) =>
      let scoreString := FormatFloat score
      labelScoresLoop TraverseTree FormatFloat features rest (scores.incr scoreString)

/-- LabelScores - traverses all trees in RandomForest with features and maps result
labels to how many trees returned those label. -/
def LabelScores (TraverseTree : Node → Features → F × Option Err)
    (FormatFloat : F → String) (rf : RandomForest Node) (features : Features) :
    Tally × Option Err :=
  labelScoresLoop TraverseTree FormatFloat features rf.Trees []

/-- Score - traverses all trees in RandomForest with features and returns ratio of
given label results count to all results count. -/
def Score (TraverseTree : Node → Features → F × Option Err)
    (FormatFloat : F → String) (rf : RandomForest Node) (features : Features)
    (label : String) : GoFloat × Option Err :=
  match LabelScores TraverseTree FormatFloat rf features with
  | (labelScores, err) =>
    let allCount := labelScores.sumValues
    (fdiv (labelScores.lookup label) allCount, err)

/-! ## Concurrent aggregation -/

/-- Body of the goroutine started for one tree: the message it sends. -/
def treeMessage (TraverseTree : Node → Features → F × Option Err)
    (FormatFloat : F → String) (features : Features) (tree : Node) : rfResult Err :=
  match TraverseTree tree features with
  | (treeScore, err) =>
    let scoreString := FormatFloat treeScore
    { ErrorName := err, Score := scoreString }

/-- The loop `for i := 0; i < len(rf.Trees); i++ { res = <-messages; ... }` with
`n` iterations left, the channel holding `messages`.  Once `wg.Wait()` has
returned no sender is left, so a receive on an empty channel never returns:
that is `none`. -/
def receiveLoop : Nat → List (rfResult Err) → Tally → Option (Tally × Option Err)
  | 0, _, scores => some (scores, none)
  | _ + 1, [], _ => none
  | n + 1, res :: messages, scores =>
    match res.ErrorName with
    | some err => some ([], some err)
    | none => receiveLoop n messages (scores.incr res.Score)

/-- LabelScoresConcurrently - same as LabelScores but concurrent.  `arrival` lists
the trees in the order in which their goroutines send their message. -/
def LabelScoresConcurrently (TraverseTree : Node → Features → F × Option Err)
    (FormatFloat : F → String) (rf : RandomForest Node) (features : Features)
    (arrival : List Node) : Option (Tally × Option Err) :=
  let messages := arrival.map (treeMessage TraverseTree FormatFloat features)
  receiveLoop rf.Trees.length messages []

/-- ScoreConcurrently - same as Score but concurrent. -/
def ScoreConcurrently (TraverseTree : Node → Features → F × Option Err)
    (FormatFloat : F → String) (rf : RandomForest Node) (features : Features)
    (label : String) (arrival : List Node) : Option (GoFloat × Option Err) :=
  match LabelScoresConcurrently TraverseTree FormatFloat rf features arrival with
  | none => none
  | some (labelScores, err) =>
    let allCount := labelScores.sumValues
    some (fdiv (labelScores.lookup label) allCount, err)

/-! ## Vocabulary of the specification -/

/-- The formatted leaf score of a tree: the key under which it votes. -/
def treeKey (TraverseTree : Node → Features → F × Option Err)
    (FormatFloat : F → String) (features : Features) (tree : Node) : String :=
  FormatFloat (TraverseTree tree features).1

/-- The error, if any, of a tree's traversal. -/
def treeError (TraverseTree : Node → Features → F × Option Err)
    (features : Features) (tree : Node) : Option Err :=
  (TraverseTree tree features).2

/-- Every tree of the list traverses successfully. -/
def AllSucceed (TraverseTree : Node → Features → F × Option Err)
    (features : Features) (trees : List Node) : Prop :=
  ∀ tree ∈ trees, treeError TraverseTree features tree = none

/-- Number of trees of the list whose formatted leaf score is `k`. -/
def votes (TraverseTree : Node → Features → F × Option Err)
    (FormatFloat : F → String) (features : Features) (trees : List Node)
    (k : String) : Nat :=
  trees.countP (fun tree => decide (treeKey TraverseTree FormatFloat features tree = k))

/-! ## A concrete forest used in the examples

Trees are identified with the outcome of their traversal: `Sum.inl s` is a tree
reaching a leaf of score `s`, `Sum.inr e` a tree failing with error `e`. -/

/-- Traversal of an example tree. -/
def exTraverse (tree : Nat ⊕ String) (_ : Unit) : Nat × Option String :=
  match tree with
  | Sum.inl s => (s, none)
  | Sum.inr e => (0, some e)

/-- Formatting of the example leaf scores `0.0`, `1.0`, `2.0`. -/
def exFormat (s : Nat) : String :=
  if s = 0 then "0" else if s = 1 then "1" else "2"

/-- Three trees yielding `1.0`, `1.0`, `0.0`. -/
def exForest : RandomForest (Nat ⊕ String) :=
  { Trees := [Sum.inl 1, Sum.inl 1, Sum.inl 0] }

/-- A tree yielding `1.0` followed by a failing tree. -/
def exFailing : RandomForest (Nat ⊕ String) :=
  { Trees := [Sum.inl 1, Sum.inr "NoMatchingBranch"] }

end Code

/-! ## Lemmas on Go maps -/

theorem Tally.get?_set (m : Tally) (k k' : String) (v : Nat) :
    (m.set k v).get? k' = if k = k' then some v else m.get? k' := by
  induction m with
  | nil => simp [Tally.set, Tally.get?]
  | cons kv rest ih =>
    obtain ⟨a, b⟩ := kv
    by_cases hak : a = k
    · subst hak
      by_cases hk : a = k' <;> simp [Tally.set, Tally.get?, hk]
    · by_cases hk : a = k'
      · subst hk
        have hka : ¬ k = a := fun h => hak h.symm
        simp [Tally.set, Tally.get?, hak, hka]
      · simp [Tally.set, Tally.get?, hak, hk, ih]

theorem Tally.get?_incr (m : Tally) (k k' : String) :
    (m.incr k).get? k' = if k = k' then some (m.lookup k + 1) else m.get? k' := by
  simp [Tally.incr, Tally.get?_set]

theorem Tally.lookup_incr (m : Tally) (k k' : String) :
    (m.incr k).lookup k' = m.lookup k' + (if k = k' then 1 else 0) := by
  unfold Tally.lookup
  rw [Tally.get?_incr]
  by_cases h : k = k'
  · subst h; simp [Tally.lookup]
  · simp [h]

theorem Tally.foldl_add (m : Tally) (c : Nat) :
    m.foldl (fun allCount kv => allCount + kv.2) c = c + (m.map Prod.snd).sum := by
  induction m generalizing c with
  | nil => simp
  | cons kv rest ih => simp [ih, Nat.add_assoc]

theorem Tally.sumValues_eq (m : Tally) : m.sumValues = (m.map Prod.snd).sum := by
  simp [Tally.sumValues, Tally.foldl_add]

theorem Tally.lookup_cons (a : String) (b : Nat) (rest : Tally) (k : String) :
    Tally.lookup ((a, b) :: rest) k = if a = k then b else Tally.lookup rest k := by
  unfold Tally.lookup
  by_cases h : a = k <;> simp [Tally.get?, h]

theorem Tally.sumValues_set (m : Tally) (k : String) (v : Nat) :
    (m.set k v).sumValues + m.lookup k = m.sumValues + v := by
  simp only [Tally.sumValues_eq]
  induction m with
  | nil => simp [Tally.set, Tally.lookup, Tally.get?]
  | cons kv rest ih =>
    obtain ⟨a, b⟩ := kv
    by_cases hak : a = k
    · simp [Tally.set, Tally.lookup_cons, hak]
      omega
    · simp [Tally.set, Tally.lookup_cons, hak]
      omega

theorem Tally.sumValues_incr (m : Tally) (k : String) :
    (m.incr k).sumValues = m.sumValues + 1 := by
  have h := Tally.sumValues_set m k (m.lookup k + 1)
  unfold Tally.incr
  omega

theorem Tally.sumValues_perm (m entries : Tally) (h : entries.Perm m) :
    (entries.map Prod.snd).sum = m.sumValues := by
  rw [Tally.sumValues_eq]
  exact (h.map Prod.snd).sum_eq

/-- A lookup never exceeds the sum of all stored counts. -/
theorem Tally.lookup_le_sumValues (m : Tally) (k : String) :
    m.lookup k ≤ m.sumValues := by
  rw [Tally.sumValues_eq]
  induction m with
  | nil => simp [Tally.lookup, Tally.get?]
  | cons kv rest ih =>
    obtain ⟨a, b⟩ := kv
    by_cases hak : a = k
    · simp [Tally.lookup_cons, hak]
    · simp [Tally.lookup_cons, hak]
      omega

theorem Tally.keys_set (m : Tally) (k : String) (v : Nat) :
    (m.set k v).keys = if k ∈ m.keys then m.keys else m.keys ++ [k] := by
  induction m with
  | nil => simp [Tally.set, Tally.keys]
  | cons kv rest ih =>
    obtain ⟨a, b⟩ := kv
    by_cases hak : a = k
    · subst hak; simp [Tally.set, Tally.keys]
    · have hka : ¬ k = a := fun h => hak h.symm
      have ih' : List.map Prod.fst (Tally.set rest k v)
          = if k ∈ List.map Prod.fst rest then List.map Prod.fst rest
            else List.map Prod.fst rest ++ [k] := ih
      simp only [Tally.set, Tally.keys, hak, if_false, List.map_cons, ih', List.mem_cons, hka,
        false_or]
      split <;> simp

theorem Tally.nodup_keys_incr (m : Tally) (k : String) (h : m.keys.Nodup) :
    (m.incr k).keys.Nodup := by
  unfold Tally.incr
  rw [Tally.keys_set]
  split
  · exact h
  · rename_i hk
    exact List.Nodup.append h (List.nodup_singleton k) (by simpa using hk)

theorem Tally.mem_keys_iff (m : Tally) (k : String) :
    k ∈ m.keys ↔ (m.get? k).isSome := by
  induction m with
  | nil => simp [Tally.keys, Tally.get?]
  | cons kv rest ih =>
    obtain ⟨a, b⟩ := kv
    have ih' : k ∈ List.map Prod.fst rest ↔ (Tally.get? rest k).isSome := ih
    by_cases hak : a = k
    · simp [Tally.keys, Tally.get?, hak]
    · have hka : ¬ k = a := fun h => hak h.symm
      simp only [Tally.keys, Tally.get?, hak, if_false, List.map_cons, List.mem_cons, hka,
        false_or]
      exact ih'

/-! ## Rounding to `float64` -/

theorem roundHalfEven_abs_sub_le (x : ℚ) : |(roundHalfEven x : ℚ) - x| ≤ 1 / 2 := by
  have h₁ : (⌊x⌋ : ℚ) ≤ x := Int.floor_le x
  have h₂ : x < (⌊x⌋ : ℚ) + 1 := Int.lt_floor_add_one x
  unfold roundHalfEven
  split_ifs with ha hb hc
  · rw [abs_le]; constructor <;> linarith
  · rw [abs_le]; push_cast; constructor <;> linarith
  · rw [abs_le]; constructor <;> linarith
  · rw [abs_le]; push_cast; constructor <;> linarith

theorem roundHalfEven_of_lt_half (x : ℚ) (m : ℤ) (hm : (m : ℚ) ≤ x)
    (hfrac : x - (m : ℚ) < 1 / 2) : roundHalfEven x = m := by
  have hfloor : ⌊x⌋ = m := by
    rw [Int.floor_eq_iff]
    constructor
    · exact hm
    · linarith
  unfold roundHalfEven
  rw [hfloor, if_pos hfrac]

theorem int_log_two_eq (q : ℚ) (e : ℤ) (hlo : (2 : ℚ) ^ e ≤ q) (hhi : q < (2 : ℚ) ^ (e + 1)) :
    Int.log 2 q = e := by
  have hq : 0 < q := lt_of_lt_of_le (zpow_pos (by norm_num) e) hlo
  have h₁ : e ≤ Int.log 2 q := by
    rw [← Int.zpow_le_iff_le_log (by norm_num) hq]
    simpa using hlo
  have h₂ : Int.log 2 q < e + 1 := by
    rw [← Int.lt_zpow_iff_log_lt (by norm_num) hq]
    simpa using hhi
  omega

/-- Evaluation of `roundFloat64` at a number of binade `e` that rounds down to the
significand `m`. -/
theorem roundFloat64_eq_of_lt_half (q : ℚ) (e m : ℤ) (hlo : (2 : ℚ) ^ e ≤ q)
    (hhi : q < (2 : ℚ) ^ (e + 1)) (hm : (m : ℚ) ≤ q / (2 : ℚ) ^ (e - 52))
    (hfrac : q / (2 : ℚ) ^ (e - 52) - (m : ℚ) < 1 / 2) :
    roundFloat64 q = (m : ℚ) * (2 : ℚ) ^ (e - 52) := by
  have hq : 0 < q := lt_of_lt_of_le (zpow_pos (by norm_num) e) hlo
  unfold roundFloat64
  rw [if_neg (not_le.mpr hq), int_log_two_eq q e hlo hhi,
    roundHalfEven_of_lt_half _ m hm hfrac]

theorem roundFloat64_abs_sub_le (q : ℚ) (hq : 0 < q) :
    |roundFloat64 q - q| ≤ (2 : ℚ) ^ (Int.log 2 q - 52) / 2 := by
  have hu : (0 : ℚ) < (2 : ℚ) ^ (Int.log 2 q - 52) := zpow_pos (by norm_num) _
  have hx := roundHalfEven_abs_sub_le (q / (2 : ℚ) ^ (Int.log 2 q - 52))
  unfold roundFloat64
  rw [if_neg (not_le.mpr hq)]
  have hrw : (roundHalfEven (q / (2 : ℚ) ^ (Int.log 2 q - 52)) : ℚ) *
        (2 : ℚ) ^ (Int.log 2 q - 52) - q =
      ((roundHalfEven (q / (2 : ℚ) ^ (Int.log 2 q - 52)) : ℚ) -
        q / (2 : ℚ) ^ (Int.log 2 q - 52)) * (2 : ℚ) ^ (Int.log 2 q - 52) := by
    field_simp
  rw [hrw, abs_mul, abs_of_pos hu]
  calc |(roundHalfEven (q / (2 : ℚ) ^ (Int.log 2 q - 52)) : ℚ) -
          q / (2 : ℚ) ^ (Int.log 2 q - 52)| * (2 : ℚ) ^ (Int.log 2 q - 52)
      ≤ 1 / 2 * (2 : ℚ) ^ (Int.log 2 q - 52) := mul_le_mul_of_nonneg_right hx hu.le
    _ = (2 : ℚ) ^ (Int.log 2 q - 52) / 2 := by ring

theorem roundFloat64_one : roundFloat64 1 = 1 := by
  have h := roundFloat64_eq_of_lt_half 1 0 (2 ^ 52) (by norm_num) (by norm_num)
    (by norm_num) (by norm_num)
  rw [h]
  norm_num

/-- A quotient in `[0, 1]` is within `2^-54` of the `float64` it is rounded to. -/
theorem roundFloat64_unit_error (q : ℚ) (h₀ : 0 ≤ q) (h₁ : q ≤ 1) :
    |roundFloat64 q - q| ≤ 1 / 2 ^ 54 := by
  rcases h₀.eq_or_lt with hz | hpos
  · subst hz
    simp [roundFloat64]
  rcases h₁.eq_or_lt with hone | hlt
  · subst hone
    rw [roundFloat64_one]
    norm_num
  have hlog : Int.log 2 q < 0 := by
    rw [← Int.lt_zpow_iff_log_lt (by norm_num) hpos]
    simpa using hlt
  have hle : (2 : ℚ) ^ (Int.log 2 q - 52) ≤ (2 : ℚ) ^ (-53 : ℤ) :=
    zpow_le_zpow_right₀ (by norm_num) (by omega)
  have hval : (2 : ℚ) ^ (-53 : ℤ) / 2 = 1 / 2 ^ 54 := by norm_num
  calc |roundFloat64 q - q| ≤ (2 : ℚ) ^ (Int.log 2 q - 52) / 2 :=
        roundFloat64_abs_sub_le q hpos
    _ ≤ (2 : ℚ) ^ (-53 : ℤ) / 2 := (div_le_div_iff_of_pos_right (by norm_num)).mpr hle
    _ = 1 / 2 ^ 54 := hval

theorem sum_roundFloat64_error (l : List ℚ) (h : ∀ q ∈ l, 0 ≤ q ∧ q ≤ 1) :
    |(l.map roundFloat64).sum - l.sum| ≤ (l.length : ℚ) / 2 ^ 54 := by
  induction l with
  | nil => simp
  | cons a rest ih =>
    have ha := h a (by simp)
    have hrest := ih (fun q hq => h q (by simp [hq]))
    have herr := roundFloat64_unit_error a ha.1 ha.2
    have hsplit : (List.map roundFloat64 (a :: rest)).sum - (a :: rest).sum =
        (roundFloat64 a - a) + ((rest.map roundFloat64).sum - rest.sum) := by
      simp only [List.map_cons, List.sum_cons]
      ring
    rw [hsplit]
    have hlen : (((a :: rest).length : ℕ) : ℚ) / 2 ^ 54 =
        1 / 2 ^ 54 + (rest.length : ℚ) / 2 ^ 54 := by
      simp only [List.length_cons]
      push_cast
      ring
    rw [hlen]
    exact (abs_add _ _).trans (add_le_add herr hrest)

/-! ## Casting a sequence of votes -/

theorem lookup_castVotes (keys : List String) (scores : Tally) (k : String) :
    (castVotes scores keys).lookup k = scores.lookup k + keys.count k := by
  induction keys generalizing scores with
  | nil => simp [castVotes]
  | cons a rest ih =>
    have h := ih (scores.incr a)
    simp only [castVotes, List.foldl_cons] at h ⊢
    rw [h, Tally.lookup_incr, List.count_cons]
    by_cases hak : a = k
    · simp [hak]; omega
    · simp [hak]

theorem sumValues_castVotes (keys : List String) (scores : Tally) :
    (castVotes scores keys).sumValues = scores.sumValues + keys.length := by
  induction keys generalizing scores with
  | nil => simp [castVotes]
  | cons a rest ih =>
    have h := ih (scores.incr a)
    simp only [castVotes, List.foldl_cons] at h ⊢
    rw [h, Tally.sumValues_incr, List.length_cons]
    omega

theorem nodup_keys_castVotes (keys : List String) (scores : Tally)
    (h : scores.keys.Nodup) : (castVotes scores keys).keys.Nodup := by
  induction keys generalizing scores with
  | nil => simpa [castVotes] using h
  | cons a rest ih =>
    have h' := ih (scores.incr a) (Tally.nodup_keys_incr scores a h)
    simpa [castVotes] using h'

theorem get?_castVotes (keys : List String) (scores : Tally) (k : String) :
    (castVotes scores keys).get? k =
      if k ∈ keys then some (scores.lookup k + keys.count k) else scores.get? k := by
  induction keys generalizing scores with
  | nil => simp [castVotes]
  | cons a rest ih =>
    have h := ih (scores.incr a)
    simp only [castVotes, List.foldl_cons] at h ⊢
    rw [h, Tally.lookup_incr, Tally.get?_incr, List.count_cons]
    by_cases hak : a = k
    · subst hak
      by_cases hr : a ∈ rest
      · simp [hr]; omega
      · simp [hr, List.count_eq_zero_of_not_mem hr]
    · have hka : ¬ k = a := fun h => hak h.symm
      by_cases hr : k ∈ rest <;> simp [hr, hak, hka]

/-! ## The loops -/

section Loops

variable {Node Features Err F : Type}

theorem allSucceed_cons (TraverseTree : Node → Features → F × Option Err)
    (features : Features) (tree : Node) (rest : List Node) :
    AllSucceed TraverseTree features (tree :: rest) ↔
      treeError TraverseTree features tree = none ∧ AllSucceed TraverseTree features rest := by
  simp [AllSucceed]

theorem allSucceed_perm (TraverseTree : Node → Features → F × Option Err)
    (features : Features) (l₁ l₂ : List Node) (h : l₁.Perm l₂)
    (hok : AllSucceed TraverseTree features l₂) : AllSucceed TraverseTree features l₁ :=
  fun tree ht => hok tree (h.mem_iff.mp ht)

theorem votes_eq_count (TraverseTree : Node → Features → F × Option Err)
    (FormatFloat : F → String) (features : Features) (trees : List Node) (k : String) :
    votes TraverseTree FormatFloat features trees k =
      (trees.map (treeKey TraverseTree FormatFloat features)).count k := by
  unfold votes List.count
  rw [List.countP_map]
  congr 1

theorem votes_perm (TraverseTree : Node → Features → F × Option Err)
    (FormatFloat : F → String) (features : Features) (l₁ l₂ : List Node) (h : l₁.Perm l₂)
    (k : String) :
    votes TraverseTree FormatFloat features l₁ k = votes TraverseTree FormatFloat features l₂ k :=
  h.countP_eq _

/-- Any list of trees either succeeds throughout or splits at its first failing tree. -/
theorem succeed_or_split (TraverseTree : Node → Features → F × Option Err)
    (features : Features) (trees : List Node) :
    AllSucceed TraverseTree features trees ∨
      ∃ pre t post e, trees = pre ++ t :: post ∧ AllSucceed TraverseTree features pre ∧
        treeError TraverseTree features t = some e := by
  induction trees with
  | nil => left; simp [AllSucceed]
  | cons tree rest ih =>
    cases hte : treeError TraverseTree features tree with
    | some e => right; exact ⟨[], tree, rest, e, rfl, by simp [AllSucceed], hte⟩
    | none =>
      rcases ih with hok | ⟨pre, t, post, e, hsplit, hpre, ht⟩
      · left; exact (allSucceed_cons _ _ _ _).mpr ⟨hte, hok⟩
      · right
        exact ⟨tree :: pre, t, post, e, by simp [hsplit],
          (allSucceed_cons _ _ _ _).mpr ⟨hte, hpre⟩, ht⟩

theorem labelScoresLoop_ok (TraverseTree : Node → Features → F × Option Err)
    (FormatFloat : F → String) (features : Features) (trees : List Node) (scores : Tally)
    (hok : AllSucceed TraverseTree features trees) :
    labelScoresLoop TraverseTree FormatFloat features trees scores =
      (castVotes scores (trees.map (treeKey TraverseTree FormatFloat features)), none) := by
  induction trees generalizing scores with
  | nil => simp [labelScoresLoop, castVotes]
  | cons tree rest ih =>
    obtain ⟨htree, hrest⟩ := (allSucceed_cons _ _ _ _).mp hok
    unfold treeError at htree
    rcases hT : TraverseTree tree features with ⟨score, err⟩
    rw [hT] at htree
    simp only at htree
    subst htree
    simp only [labelScoresLoop, hT, ih _ hrest, castVotes, List.map_cons, List.foldl_cons,
      treeKey]

theorem labelScoresLoop_split (TraverseTree : Node → Features → F × Option Err)
    (FormatFloat : F → String) (features : Features) (pre : List Node) (t : Node)
    (post : List Node) (e : Err) (scores : Tally)
    (hpre : AllSucceed TraverseTree features pre)
    (ht : treeError TraverseTree features t = some e) :
    labelScoresLoop TraverseTree FormatFloat features (pre ++ t :: post) scores =
      (castVotes scores (pre.map (treeKey TraverseTree FormatFloat features)), some e) := by
  induction pre generalizing scores with
  | nil =>
    unfold treeError at ht
    rcases hT : TraverseTree t features with ⟨score, err⟩
    rw [hT] at ht
    simp only at ht
    subst ht
    simp [labelScoresLoop, hT, castVotes]
  | cons tree rest ih =>
    obtain ⟨htree, hrest⟩ := (allSucceed_cons _ _ _ _).mp hpre
    unfold treeError at htree
    rcases hT : TraverseTree tree features with ⟨score, err⟩
    rw [hT] at htree
    simp only at htree
    subst htree
    have h := ih (scores.incr (FormatFloat score)) hrest
    simp only [castVotes] at h
    simp only [List.cons_append, labelScoresLoop, hT, castVotes, List.map_cons,
      List.foldl_cons, treeKey]
    exact h

theorem receiveLoop_ok (TraverseTree : Node → Features → F × Option Err)
    (FormatFloat : F → String) (features : Features) (arrival : List Node) (scores : Tally)
    (hok : AllSucceed TraverseTree features arrival) :
    receiveLoop arrival.length
        (arrival.map (treeMessage TraverseTree FormatFloat features)) scores =
      some (castVotes scores (arrival.map (treeKey TraverseTree FormatFloat features)), none) := by
  induction arrival generalizing scores with
  | nil => simp [receiveLoop, castVotes]
  | cons tree rest ih =>
    obtain ⟨htree, hrest⟩ := (allSucceed_cons _ _ _ _).mp hok
    unfold treeError at htree
    rcases hT : TraverseTree tree features with ⟨score, err⟩
    rw [hT] at htree
    simp only at htree
    subst htree
    simp only [List.length_cons, List.map_cons, receiveLoop, treeMessage, hT, ih _ hrest,
      castVotes, List.foldl_cons, treeKey]

theorem receiveLoop_split (TraverseTree : Node → Features → F × Option Err)
    (FormatFloat : F → String) (features : Features) (pre : List Node) (t : Node)
    (post : List Node) (e : Err) (scores : Tally)
    (hpre : AllSucceed TraverseTree features pre)
    (ht : treeError TraverseTree features t = some e) :
    receiveLoop (pre ++ t :: post).length
        ((pre ++ t :: post).map (treeMessage TraverseTree FormatFloat features)) scores =
      some ([], some e) := by
  induction pre generalizing scores with
  | nil =>
    unfold treeError at ht
    rcases hT : TraverseTree t features with ⟨score, err⟩
    rw [hT] at ht
    simp only at ht
    subst ht
    simp [receiveLoop, treeMessage, hT]
  | cons tree rest ih =>
    obtain ⟨htree, hrest⟩ := (allSucceed_cons _ _ _ _).mp hpre
    unfold treeError at htree
    rcases hT : TraverseTree tree features with ⟨score, err⟩
    rw [hT] at htree
    simp only at htree
    subst htree
    have h := ih (scores.incr (FormatFloat score)) hrest
    simp only [List.cons_append, List.length_cons, List.map_cons, receiveLoop, treeMessage, hT]
    exact h

end Loops

/-! ## Sequential aggregation: results -/

section Sequential

variable {Node Features Err F : Type}

theorem labelScores_ok (TraverseTree : Node → Features → F × Option Err)
    (FormatFloat : F → String) (rf : RandomForest Node) (features : Features)
    (hok : AllSucceed TraverseTree features rf.Trees) :
    LabelScores TraverseTree FormatFloat rf features =
      (castVotes [] (rf.Trees.map (treeKey TraverseTree FormatFloat features)), none) :=
  labelScoresLoop_ok TraverseTree FormatFloat features rf.Trees [] hok

theorem lookup_castVotes_nil (TraverseTree : Node → Features → F × Option Err)
    (FormatFloat : F → String) (features : Features) (trees : List Node) (k : String) :
    (castVotes [] (trees.map (treeKey TraverseTree FormatFloat features))).lookup k =
      votes TraverseTree FormatFloat features trees k := by
  rw [lookup_castVotes, votes_eq_count]
  simp [Tally.lookup, Tally.get?]

theorem sumValues_castVotes_nil (keys : List String) :
    (castVotes [] keys).sumValues = keys.length := by
  rw [sumValues_castVotes]
  simp [Tally.sumValues]

theorem score_ok (TraverseTree : Node → Features → F × Option Err)
    (FormatFloat : F → String) (rf : RandomForest Node) (features : Features)
    (label : String) (hok : AllSucceed TraverseTree features rf.Trees) :
    Score TraverseTree FormatFloat rf features label =
      (fdiv (votes TraverseTree FormatFloat features rf.Trees label) rf.Trees.length, none) := by
  unfold Score
  rw [labelScores_ok TraverseTree FormatFloat rf features hok]
  simp only [lookup_castVotes_nil, sumValues_castVotes_nil, List.length_map]

theorem exForest_allSucceed : AllSucceed exTraverse () exForest.Trees := by
  simp [AllSucceed, treeError, exTraverse, exForest]

/-- C1: for every non-empty forest and feature set on which every tree's traversal
succeeds, and every label, `Score` returns no error and the number of trees whose
formatted leaf score equals the label, divided by the number of trees. -/
theorem score_eq_vote_share (TraverseTree : Node → Features → F × Option Err)
    (FormatFloat : F → String) (rf : RandomForest Node) (features : Features)
    (label : String) (hne : rf.Trees ≠ [])
    (hok : AllSucceed TraverseTree features rf.Trees) :
    Score TraverseTree FormatFloat rf features label =
      (GoFloat.fin ((votes TraverseTree FormatFloat features rf.Trees label : ℚ) /
        (rf.Trees.length : ℚ)), none) := by
  rw [score_ok TraverseTree FormatFloat rf features label hok]
  have hlen : rf.Trees.length ≠ 0 := fun h => hne (List.length_eq_zero.mp h)
  simp [fdiv, hlen]

/-- Scenario of the specification: three trees yielding 1.0, 1.0, 0.0 give
`Score "1" = 2/3`, `Score "0" = 1/3` and `Score "2" = 0`, each without error. -/
theorem score_eq_vote_share_witness :
    exForest.Trees ≠ [] ∧ AllSucceed exTraverse () exForest.Trees ∧
    Score exTraverse exFormat exForest () "1" = (GoFloat.fin (2 / 3), none) ∧
    Score exTraverse exFormat exForest () "0" = (GoFloat.fin (1 / 3), none) ∧
    Score exTraverse exFormat exForest () "2" = (GoFloat.fin 0, none) :=
  ⟨by simp [exForest], exForest_allSucceed,
   (score_eq_vote_share exTraverse exFormat exForest () "1" (by simp [exForest])
      exForest_allSucceed).trans (by simp [votes, treeKey, exTraverse, exFormat, exForest]),
   (score_eq_vote_share exTraverse exFormat exForest () "0" (by simp [exForest])
      exForest_allSucceed).trans (by simp [votes, treeKey, exTraverse, exFormat, exForest]),
   (score_eq_vote_share exTraverse exFormat exForest () "2" (by simp [exForest])
      exForest_allSucceed).trans (by simp [votes, treeKey, exTraverse, exFormat, exForest])⟩

/-- C2: for every forest and feature set on which every tree's traversal succeeds,
`LabelScores` returns no error and a tally in which the count of every key `k` is
the number of trees whose formatted leaf score is `k`; a key is present exactly
when some tree produced it (and it is stored once). -/
theorem labelScores_counts_votes (TraverseTree : Node → Features → F × Option Err)
    (FormatFloat : F → String) (rf : RandomForest Node) (features : Features)
    (hok : AllSucceed TraverseTree features rf.Trees) :
    (LabelScores TraverseTree FormatFloat rf features).2 = none ∧
    (∀ k, (LabelScores TraverseTree FormatFloat rf features).1.lookup k =
      votes TraverseTree FormatFloat features rf.Trees k) ∧
    (∀ k, ((LabelScores TraverseTree FormatFloat rf features).1.get? k).isSome ↔
      ∃ tree ∈ rf.Trees, treeKey TraverseTree FormatFloat features tree = k) ∧
    (LabelScores TraverseTree FormatFloat rf features).1.keys.Nodup := by
  rw [labelScores_ok TraverseTree FormatFloat rf features hok]
  refine ⟨rfl, fun k => lookup_castVotes_nil _ _ _ _ k, fun k => ?_, ?_⟩
  · simp only [get?_castVotes, List.mem_map]
    by_cases h : ∃ tree ∈ rf.Trees, treeKey TraverseTree FormatFloat features tree = k
    · simp [h]
    · simp [h, Tally.get?]
  · exact nodup_keys_castVotes _ [] (by simp [Tally.keys])

theorem labelScores_counts_votes_witness :
    AllSucceed exTraverse () exForest.Trees ∧
    (LabelScores exTraverse exFormat exForest ()).2 = none ∧
    (LabelScores exTraverse exFormat exForest ()).1.lookup "1" = 2 ∧
    (LabelScores exTraverse exFormat exForest ()).1.lookup "0" = 1 ∧
    ((LabelScores exTraverse exFormat exForest ()).1.get? "2").isSome = false :=
  have h := labelScores_counts_votes exTraverse exFormat exForest () exForest_allSucceed
  ⟨exForest_allSucceed, h.1, (h.2.1 "1").trans (by decide), (h.2.1 "0").trans (by decide),
    by decide⟩

/-- C3: for every forest `F` and feature set `X` on which every tree traverses
successfully (in particular every non-empty one), the sum of all vote counts in the
tally returned by `LabelScores` equals the number of trees in `F`. -/
theorem labelScores_sum_eq_length (TraverseTree : Node → Features → F × Option Err)
    (FormatFloat : F → String) (rf : RandomForest Node) (features : Features)
    (hok : AllSucceed TraverseTree features rf.Trees) :
    ((LabelScores TraverseTree FormatFloat rf features).1.map Prod.snd).sum =
      rf.Trees.length := by
  rw [labelScores_ok TraverseTree FormatFloat rf features hok, ← Tally.sumValues_eq,
    sumValues_castVotes_nil, List.length_map]

theorem labelScores_sum_eq_length_witness :
    exForest.Trees ≠ [] ∧ AllSucceed exTraverse () exForest.Trees ∧
    ((LabelScores exTraverse exFormat exForest ()).1.map Prod.snd).sum = 3 :=
  ⟨by simp [exForest], exForest_allSucceed,
   labelScores_sum_eq_length exTraverse exFormat exForest () exForest_allSucceed⟩

/-- C4: for every forest, feature set and label, the value returned by `Score` is
the tally returned by `LabelScores` looked up at the label (0 when absent) divided
by the sum of all counts of that tally, in whichever order `entries` the range
loop visits the tally: the quotient of the two numbers when the sum is not zero,
and the quotient `0/0` (numerator 0 as well, value NaN) when it is zero. -/
theorem score_eq_lookup_div_sum (TraverseTree : Node → Features → F × Option Err)
    (FormatFloat : F → String) (rf : RandomForest Node) (features : Features)
    (label : String) (entries : Tally)
    (hperm : entries.Perm (LabelScores TraverseTree FormatFloat rf features).1) :
    ((entries.map Prod.snd).sum ≠ 0 →
      (Score TraverseTree FormatFloat rf features label).1 =
        GoFloat.fin (((LabelScores TraverseTree FormatFloat rf features).1.lookup label : ℚ) /
          ((entries.map Prod.snd).sum : ℚ))) ∧
    ((entries.map Prod.snd).sum = 0 →
      (LabelScores TraverseTree FormatFloat rf features).1.lookup label = 0 ∧
      (Score TraverseTree FormatFloat rf features label).1 = GoFloat.nan) := by
  have hscore : (Score TraverseTree FormatFloat rf features label).1 =
      fdiv ((LabelScores TraverseTree FormatFloat rf features).1.lookup label)
        (LabelScores TraverseTree FormatFloat rf features).1.sumValues := rfl
  have hle := Tally.lookup_le_sumValues
    (LabelScores TraverseTree FormatFloat rf features).1 label
  rw [hscore, Tally.sumValues_perm _ entries hperm]
  constructor
  · intro hsum
    simp [fdiv, hsum]
  · intro hsum
    rw [hsum] at hle ⊢
    have hzero : (LabelScores TraverseTree FormatFloat rf features).1.lookup label = 0 :=
      Nat.le_zero.mp hle
    exact ⟨hzero, by simp [fdiv, hzero]⟩

theorem score_eq_lookup_div_sum_witness :
    List.Perm [("0", 1), ("1", 2)] (LabelScores exTraverse exFormat exForest ()).1 ∧
    (List.map Prod.snd [("0", 1), ("1", 2)]).sum ≠ 0 ∧
    (Score exTraverse exFormat exForest () "1").1 = GoFloat.fin (2 / 3) ∧
    List.Perm [] (LabelScores exTraverse exFormat { Trees := [] } ()).1 ∧
    (List.map Prod.snd ([] : Tally)).sum = 0 ∧
    (Score exTraverse exFormat { Trees := [] } () "1").1 = GoFloat.nan :=
  ⟨List.Perm.swap _ _ _, by decide,
   ((score_eq_lookup_div_sum exTraverse exFormat exForest () "1" [("0", 1), ("1", 2)]
     (List.Perm.swap _ _ _)).1 (by decide)).trans
     (by simp [LabelScores, labelScoresLoop, exForest, exTraverse, exFormat, Tally.incr,
       Tally.set, Tally.lookup, Tally.get?]),
   List.Perm.nil, rfl,
   ((score_eq_lookup_div_sum exTraverse exFormat { Trees := [] } () "1" []
     List.Perm.nil).2 rfl).2⟩

theorem labelScores_split (TraverseTree : Node → Features → F × Option Err)
    (FormatFloat : F → String) (rf : RandomForest Node) (features : Features)
    (pre : List Node) (t : Node) (post : List Node) (e : Err)
    (hsplit : rf.Trees = pre ++ t :: post)
    (hpre : AllSucceed TraverseTree features pre)
    (ht : treeError TraverseTree features t = some e) :
    LabelScores TraverseTree FormatFloat rf features =
      (castVotes [] (pre.map (treeKey TraverseTree FormatFloat features)), some e) := by
  unfold LabelScores
  rw [hsplit]
  exact labelScoresLoop_split TraverseTree FormatFloat features pre t post e [] hpre ht

theorem exists_failing_iff (TraverseTree : Node → Features → F × Option Err)
    (features : Features) (trees : List Node) :
    (∃ tree ∈ trees, treeError TraverseTree features tree ≠ none) ↔
      ¬ AllSucceed TraverseTree features trees := by
  simp [AllSucceed]

theorem labelScores_error_iff (TraverseTree : Node → Features → F × Option Err)
    (FormatFloat : F → String) (rf : RandomForest Node) (features : Features) :
    (LabelScores TraverseTree FormatFloat rf features).2 ≠ none ↔
      ∃ tree ∈ rf.Trees, treeError TraverseTree features tree ≠ none := by
  rw [exists_failing_iff]
  rcases succeed_or_split TraverseTree features rf.Trees with hok | ⟨pre, t, post, e, hs, hp, ht⟩
  · rw [labelScores_ok TraverseTree FormatFloat rf features hok]
    simp [hok]
  · rw [labelScores_split TraverseTree FormatFloat rf features pre t post e hs hp ht]
    have hnot : ¬ AllSucceed TraverseTree features rf.Trees := fun hall => by
      have := hall t (by rw [hs]; simp)
      rw [ht] at this
      cases this
    simp [hnot]

/-- C5: `LabelScores` and `Score` return a non-nil error if and only if some tree's
traversal returns an error, and then the error is that of the first failing tree in
forest order, whatever the trees after it do. -/
theorem sequential_error_is_first_failure
    (TraverseTree : Node → Features → F × Option Err)
    (FormatFloat : F → String) (rf : RandomForest Node) (features : Features)
    (label : String) :
    ((LabelScores TraverseTree FormatFloat rf features).2 ≠ none ↔
      ∃ tree ∈ rf.Trees, treeError TraverseTree features tree ≠ none) ∧
    ((Score TraverseTree FormatFloat rf features label).2 ≠ none ↔
      ∃ tree ∈ rf.Trees, treeError TraverseTree features tree ≠ none) ∧
    (∀ pre t post e, rf.Trees = pre ++ t :: post →
      AllSucceed TraverseTree features pre →
      treeError TraverseTree features t = some e →
      (LabelScores TraverseTree FormatFloat rf features).2 = some e ∧
      (Score TraverseTree FormatFloat rf features label).2 = some e) := by
  have hscore : (Score TraverseTree FormatFloat rf features label).2 =
      (LabelScores TraverseTree FormatFloat rf features).2 := rfl
  have hiff := labelScores_error_iff TraverseTree FormatFloat rf features
  refine ⟨hiff, hscore ▸ hiff, ?_⟩
  intro pre t post e hs hp ht
  rw [hscore, labelScores_split TraverseTree FormatFloat rf features pre t post e hs hp ht]
  exact ⟨rfl, rfl⟩

theorem sequential_error_is_first_failure_witness :
    exFailing.Trees = [Sum.inl 1] ++ Sum.inr "NoMatchingBranch" :: [] ∧
    AllSucceed exTraverse () [Sum.inl 1] ∧
    treeError exTraverse () (Sum.inr "NoMatchingBranch") = some "NoMatchingBranch" ∧
    (LabelScores exTraverse exFormat exFailing ()).2 = some "NoMatchingBranch" ∧
    (Score exTraverse exFormat exFailing () "1").2 = some "NoMatchingBranch" :=
  ⟨rfl, by simp [AllSucceed, treeError, exTraverse], rfl,
   (sequential_error_is_first_failure exTraverse exFormat exFailing () "1").2.2
     [Sum.inl 1] (Sum.inr "NoMatchingBranch") [] "NoMatchingBranch" rfl
     (by simp [AllSucceed, treeError, exTraverse]) rfl⟩

/-- C10: for every non-empty forest and feature set on which every tree traverses
successfully, and every label that is not the formatted leaf score of any tree,
`Score` returns exactly `0.0` and no error. -/
theorem score_absent_label_zero (TraverseTree : Node → Features → F × Option Err)
    (FormatFloat : F → String) (rf : RandomForest Node) (features : Features)
    (label : String) (hne : rf.Trees ≠ [])
    (hok : AllSucceed TraverseTree features rf.Trees)
    (habsent : ∀ tree ∈ rf.Trees, treeKey TraverseTree FormatFloat features tree ≠ label) :
    Score TraverseTree FormatFloat rf features label = (GoFloat.fin 0, none) := by
  rw [score_ok TraverseTree FormatFloat rf features label hok]
  have hlen : rf.Trees.length ≠ 0 := fun h => hne (List.length_eq_zero.mp h)
  have hvotes : votes TraverseTree FormatFloat features rf.Trees label = 0 := by
    unfold votes
    rw [List.countP_eq_zero]
    intro tree ht
    simpa using habsent tree ht
  simp [fdiv, hlen, hvotes]

theorem score_absent_label_zero_witness :
    exForest.Trees ≠ [] ∧ AllSucceed exTraverse () exForest.Trees ∧
    (∀ tree ∈ exForest.Trees, treeKey exTraverse exFormat () tree ≠ "2") ∧
    Score exTraverse exFormat exForest () "2" = (GoFloat.fin 0, none) :=
  ⟨by simp [exForest], exForest_allSucceed,
   by simp [exForest, treeKey, exTraverse, exFormat],
   score_absent_label_zero exTraverse exFormat exForest () "2" (by simp [exForest])
     exForest_allSucceed (by simp [exForest, treeKey, exTraverse, exFormat])⟩

end Sequential

/-! ## Concurrent aggregation: results -/

section Concurrent

variable {Node Features Err F : Type}

theorem labelScoresConcurrently_ok (TraverseTree : Node → Features → F × Option Err)
    (FormatFloat : F → String) (rf : RandomForest Node) (features : Features)
    (arrival : List Node) (hperm : arrival.Perm rf.Trees)
    (hok : AllSucceed TraverseTree features rf.Trees) :
    LabelScoresConcurrently TraverseTree FormatFloat rf features arrival =
      some (castVotes [] (arrival.map (treeKey TraverseTree FormatFloat features)), none) := by
  unfold LabelScoresConcurrently
  rw [← hperm.length_eq]
  exact receiveLoop_ok TraverseTree FormatFloat features arrival []
    (allSucceed_perm TraverseTree features arrival rf.Trees hperm hok)

theorem labelScoresConcurrently_split (TraverseTree : Node → Features → F × Option Err)
    (FormatFloat : F → String) (rf : RandomForest Node) (features : Features)
    (arrival : List Node) (hperm : arrival.Perm rf.Trees)
    (pre : List Node) (t : Node) (post : List Node) (e : Err)
    (hsplit : arrival = pre ++ t :: post)
    (hpre : AllSucceed TraverseTree features pre)
    (ht : treeError TraverseTree features t = some e) :
    LabelScoresConcurrently TraverseTree FormatFloat rf features arrival =
      some ([], some e) := by
  unfold LabelScoresConcurrently
  rw [← hperm.length_eq, hsplit]
  exact receiveLoop_split TraverseTree FormatFloat features pre t post e [] hpre ht

theorem get?_castVotes_perm (l₁ l₂ : List String) (h : l₁.Perm l₂) (k : String) :
    (castVotes [] l₁).get? k = (castVotes [] l₂).get? k := by
  rw [get?_castVotes, get?_castVotes, h.count_eq k]
  by_cases hk : k ∈ l₁
  · simp [hk, h.mem_iff.mp hk]
  · have hk' : k ∉ l₂ := fun hmem => hk (h.mem_iff.mpr hmem)
    simp [hk, hk']

/-- C6: on the forest made of a tree yielding 1.0 followed by a failing tree,
`LabelScores` returns the partial tally holding the first tree's vote, while
`LabelScoresConcurrently`, documented as the same as `LabelScores`, returns the
empty map in either arrival order: the two tallies differ at key `"1"`. -/
theorem concurrent_tally_differs_on_failure :
    LabelScores exTraverse exFormat exFailing () = ([("1", 1)], some "NoMatchingBranch") ∧
    List.Perm [Sum.inl 1, Sum.inr "NoMatchingBranch"] exFailing.Trees ∧
    LabelScoresConcurrently exTraverse exFormat exFailing ()
      [Sum.inl 1, Sum.inr "NoMatchingBranch"] = some ([], some "NoMatchingBranch") ∧
    List.Perm [Sum.inr "NoMatchingBranch", Sum.inl 1] exFailing.Trees ∧
    LabelScoresConcurrently exTraverse exFormat exFailing ()
      [Sum.inr "NoMatchingBranch", Sum.inl 1] = some ([], some "NoMatchingBranch") ∧
    Tally.get? [] "1" = none ∧ Tally.get? [("1", 1)] "1" = some 1 :=
  ⟨by decide, List.Perm.refl _, by decide, List.Perm.swap _ _ _, by decide, by decide,
    by decide⟩

/-- When every tree traverses successfully, `LabelScoresConcurrently` and
`LabelScores` both return no error and tallies that are identical key for key and
count for count, for every arrival order of the per-tree results. -/
theorem concurrent_tally_eq_sequential (TraverseTree : Node → Features → F × Option Err)
    (FormatFloat : F → String) (rf : RandomForest Node) (features : Features)
    (arrival : List Node) (hperm : arrival.Perm rf.Trees)
    (hok : AllSucceed TraverseTree features rf.Trees) :
    ∃ tally, LabelScoresConcurrently TraverseTree FormatFloat rf features arrival =
        some (tally, none) ∧
      (LabelScores TraverseTree FormatFloat rf features).2 = none ∧
      ∀ k, tally.get? k = (LabelScores TraverseTree FormatFloat rf features).1.get? k := by
  refine ⟨_, labelScoresConcurrently_ok TraverseTree FormatFloat rf features arrival hperm hok,
    ?_, ?_⟩
  · rw [labelScores_ok TraverseTree FormatFloat rf features hok]
  · intro k
    rw [labelScores_ok TraverseTree FormatFloat rf features hok]
    exact get?_castVotes_perm _ _ (hperm.map _) k

theorem concurrent_tally_eq_sequential_witness :
    List.Perm [Sum.inl 0, Sum.inl 1, Sum.inl 1] exForest.Trees ∧
    AllSucceed exTraverse () exForest.Trees ∧
    ∃ tally, LabelScoresConcurrently exTraverse exFormat exForest ()
        [Sum.inl 0, Sum.inl 1, Sum.inl 1] = some (tally, none) ∧
      (LabelScores exTraverse exFormat exForest ()).2 = none ∧
      ∀ k, tally.get? k = (LabelScores exTraverse exFormat exForest ()).1.get? k :=
  ⟨by decide, exForest_allSucceed,
   concurrent_tally_eq_sequential exTraverse exFormat exForest ()
     [Sum.inl 0, Sum.inl 1, Sum.inl 1] (by decide) exForest_allSucceed⟩

/-- C7: when every tree's traversal succeeds, `LabelScoresConcurrently` returns no
error and, for every arrival order of the per-tree results, a tally in which each
key's count is the number of trees of the forest whose formatted leaf score is that
key; the counts add up to the number of trees, one vote per tree. -/
theorem concurrent_tally_counts_votes (TraverseTree : Node → Features → F × Option Err)
    (FormatFloat : F → String) (rf : RandomForest Node) (features : Features)
    (arrival : List Node) (hperm : arrival.Perm rf.Trees)
    (hok : AllSucceed TraverseTree features rf.Trees) :
    ∃ tally, LabelScoresConcurrently TraverseTree FormatFloat rf features arrival =
        some (tally, none) ∧
      (∀ k, tally.lookup k = votes TraverseTree FormatFloat features rf.Trees k) ∧
      (∀ k, (tally.get? k).isSome ↔
        ∃ tree ∈ rf.Trees, treeKey TraverseTree FormatFloat features tree = k) ∧
      (tally.map Prod.snd).sum = rf.Trees.length := by
  refine ⟨_, labelScoresConcurrently_ok TraverseTree FormatFloat rf features arrival hperm hok,
    fun k => ?_, fun k => ?_, ?_⟩
  · rw [lookup_castVotes_nil]
    exact votes_perm TraverseTree FormatFloat features arrival rf.Trees hperm k
  · rw [get?_castVotes_perm _ _ (hperm.map (treeKey TraverseTree FormatFloat features)) k]
    simp only [get?_castVotes, List.mem_map]
    by_cases h : ∃ tree ∈ rf.Trees, treeKey TraverseTree FormatFloat features tree = k
    · simp [h]
    · simp [h, Tally.get?]
  · rw [← Tally.sumValues_eq, sumValues_castVotes_nil, List.length_map, hperm.length_eq]

theorem concurrent_tally_counts_votes_witness :
    List.Perm [Sum.inl 0, Sum.inl 1, Sum.inl 1] exForest.Trees ∧
    AllSucceed exTraverse () exForest.Trees ∧
    ∃ tally, LabelScoresConcurrently exTraverse exFormat exForest ()
        [Sum.inl 0, Sum.inl 1, Sum.inl 1] = some (tally, none) ∧
      tally.lookup "1" = 2 ∧ tally.lookup "0" = 1 ∧ (tally.map Prod.snd).sum = 3 :=
  have ⟨tally, hrun, hcount, _, hsum⟩ :=
    concurrent_tally_counts_votes exTraverse exFormat exForest ()
      [Sum.inl 0, Sum.inl 1, Sum.inl 1] (by decide) exForest_allSucceed
  ⟨by decide, exForest_allSucceed, tally, hrun, (hcount "1").trans (by decide),
    (hcount "0").trans (by decide), hsum⟩

theorem not_allSucceed_split (TraverseTree : Node → Features → F × Option Err)
    (features : Features) (pre : List Node) (t : Node) (post : List Node) (e : Err)
    (ht : treeError TraverseTree features t = some e) :
    ¬ AllSucceed TraverseTree features (pre ++ t :: post) := by
  intro hall
  have h := hall t (by simp)
  rw [ht] at h
  cases h

theorem labelScoresConcurrently_cases
    (TraverseTree : Node → Features → F × Option Err)
    (FormatFloat : F → String) (rf : RandomForest Node) (features : Features)
    (arrival : List Node) (hperm : arrival.Perm rf.Trees) :
    ∃ tally err, LabelScoresConcurrently TraverseTree FormatFloat rf features arrival =
        some (tally, err) ∧
      (err ≠ none ↔ ∃ tree ∈ rf.Trees, treeError TraverseTree features tree ≠ none) ∧
      (∀ pre t post e, arrival = pre ++ t :: post →
        AllSucceed TraverseTree features pre →
        treeError TraverseTree features t = some e → err = some e) ∧
      (∀ e, err = some e → ∃ tree ∈ rf.Trees, treeError TraverseTree features tree = some e) ∧
      (err ≠ none → tally = []) := by
  rcases succeed_or_split TraverseTree features arrival with hok | ⟨pre, t, post, e, hs, hp, ht⟩
  · have hall : AllSucceed TraverseTree features rf.Trees :=
      allSucceed_perm TraverseTree features rf.Trees arrival hperm.symm hok
    refine ⟨_, none,
      labelScoresConcurrently_ok TraverseTree FormatFloat rf features arrival hperm hall,
      ?_, ?_, ?_, ?_⟩
    · rw [exists_failing_iff]
      simp [hall]
    · intro pre t post e hs _ ht
      exact absurd (hs ▸ hok) (not_allSucceed_split TraverseTree features pre t post e ht)
    · intro e he
      cases he
    · intro h
      exact absurd rfl h
  · have hnot : ¬ AllSucceed TraverseTree features rf.Trees := fun hall =>
      not_allSucceed_split TraverseTree features pre t post e ht
        (hs ▸ allSucceed_perm TraverseTree features arrival rf.Trees hperm hall)
    have hmem : t ∈ rf.Trees := hperm.mem_iff.mp (by rw [hs]; simp)
    refine ⟨[], some e,
      labelScoresConcurrently_split TraverseTree FormatFloat rf features arrival hperm
        pre t post e hs hp ht, ?_, ?_, ?_, ?_⟩
    · rw [exists_failing_iff]
      simp [hnot]
    · intro pre' t' post' e' hs' hp' ht'
      have h₁ := labelScoresConcurrently_split TraverseTree FormatFloat rf features arrival
        hperm pre t post e hs hp ht
      have h₂ := labelScoresConcurrently_split TraverseTree FormatFloat rf features arrival
        hperm pre' t' post' e' hs' hp' ht'
      rw [h₁] at h₂
      simpa using h₂
    · intro e' he'
      cases he'
      exact ⟨t, hmem, ht⟩
    · intro _
      rfl

/-- C8: for every forest, feature set and arrival order of the per-tree results,
`LabelScoresConcurrently` returns a non-nil error if and only if some tree's
traversal returned an error; the error is that of the first failing result in
arrival order, hence of one of the failing trees, and the tally returned with it is
empty. -/
theorem concurrent_error_is_first_arrival
    (TraverseTree : Node → Features → F × Option Err)
    (FormatFloat : F → String) (rf : RandomForest Node) (features : Features)
    (arrival : List Node) (hperm : arrival.Perm rf.Trees) :
    ∃ tally err, LabelScoresConcurrently TraverseTree FormatFloat rf features arrival =
        some (tally, err) ∧
      (err ≠ none ↔ ∃ tree ∈ rf.Trees, treeError TraverseTree features tree ≠ none) ∧
      (∀ pre t post e, arrival = pre ++ t :: post →
        AllSucceed TraverseTree features pre →
        treeError TraverseTree features t = some e → err = some e) ∧
      (∀ e, err = some e → ∃ tree ∈ rf.Trees, treeError TraverseTree features tree = some e) ∧
      (err ≠ none → tally = []) :=
  labelScoresConcurrently_cases TraverseTree FormatFloat rf features arrival hperm

theorem concurrent_error_is_first_arrival_witness :
    List.Perm [Sum.inr "NoMatchingBranch", Sum.inl 1] exFailing.Trees ∧
    LabelScoresConcurrently exTraverse exFormat exFailing ()
      [Sum.inr "NoMatchingBranch", Sum.inl 1] = some ([], some "NoMatchingBranch") :=
  have ⟨tally, err, hrun, _, hfirst, _, hempty⟩ :=
    concurrent_error_is_first_arrival exTraverse exFormat exFailing ()
      [Sum.inr "NoMatchingBranch", Sum.inl 1] (by decide)
  have herr : err = some "NoMatchingBranch" :=
    hfirst [] (Sum.inr "NoMatchingBranch") [Sum.inl 1] "NoMatchingBranch" rfl
      (by simp [AllSucceed]) rfl
  have htally : tally = [] := hempty (by simp [herr])
  ⟨by decide, by rw [hrun, herr, htally]⟩

theorem scoreConcurrently_of_run (TraverseTree : Node → Features → F × Option Err)
    (FormatFloat : F → String) (rf : RandomForest Node) (features : Features)
    (label : String) (arrival : List Node) (tally : Tally) (err : Option Err)
    (hrun : LabelScoresConcurrently TraverseTree FormatFloat rf features arrival =
      some (tally, err)) :
    ScoreConcurrently TraverseTree FormatFloat rf features label arrival =
      some (fdiv (tally.lookup label) tally.sumValues, err) := by
  unfold ScoreConcurrently
  rw [hrun]

/-- C9: on the forest made of a tree yielding 1.0 followed by a failing tree, and
label `"1"`, `Score` returns the ratio `1/1` of the partial tally together with the
error, while `ScoreConcurrently`, documented as the same as `Score`, returns the
quotient `0/0` (NaN) of the empty map with the error. -/
theorem scoreConcurrently_differs_on_failure :
    List.Perm [Sum.inl 1, Sum.inr "NoMatchingBranch"] exFailing.Trees ∧
    Score exTraverse exFormat exFailing () "1" =
      (GoFloat.fin 1, some "NoMatchingBranch") ∧
    ScoreConcurrently exTraverse exFormat exFailing () "1"
      [Sum.inl 1, Sum.inr "NoMatchingBranch"] =
      some (GoFloat.nan, some "NoMatchingBranch") ∧
    GoFloat.fin 1 ≠ GoFloat.nan :=
  ⟨List.Perm.refl _,
   by simp [Score, LabelScores, labelScoresLoop, exFailing, exTraverse, exFormat, Tally.incr,
     Tally.set, Tally.lookup, Tally.get?, Tally.sumValues, fdiv],
   by simp [ScoreConcurrently, LabelScoresConcurrently, receiveLoop, treeMessage, exFailing,
     exTraverse, exFormat, Tally.incr, Tally.set, Tally.lookup, Tally.get?, Tally.sumValues,
     fdiv],
   by simp⟩

/-- For every arrival order of the per-tree results, `ScoreConcurrently` returns an
error exactly when `Score` does, and when every tree traverses successfully it
returns the same probability value as `Score`. -/
theorem scoreConcurrently_eq_score (TraverseTree : Node → Features → F × Option Err)
    (FormatFloat : F → String) (rf : RandomForest Node) (features : Features)
    (label : String) (arrival : List Node) (hperm : arrival.Perm rf.Trees) :
    ∃ value err, ScoreConcurrently TraverseTree FormatFloat rf features label arrival =
        some (value, err) ∧
      (err ≠ none ↔ (Score TraverseTree FormatFloat rf features label).2 ≠ none) ∧
      (AllSucceed TraverseTree features rf.Trees →
        value = (Score TraverseTree FormatFloat rf features label).1 ∧ err = none) := by
  obtain ⟨tally, err, hrun, hiff, _, _, _⟩ :=
    labelScoresConcurrently_cases TraverseTree FormatFloat rf features arrival hperm
  refine ⟨_, err, scoreConcurrently_of_run TraverseTree FormatFloat rf features label arrival
    tally err hrun, ?_, ?_⟩
  · rw [hiff]
    exact (labelScores_error_iff TraverseTree FormatFloat rf features).symm
  · intro hok
    have hrun' := labelScoresConcurrently_ok TraverseTree FormatFloat rf features arrival
      hperm hok
    rw [hrun'] at hrun
    cases hrun
    rw [score_ok TraverseTree FormatFloat rf features label hok, lookup_castVotes_nil,
      sumValues_castVotes_nil, List.length_map, hperm.length_eq,
      votes_perm TraverseTree FormatFloat features arrival rf.Trees hperm label]
    exact ⟨rfl, rfl⟩

theorem scoreConcurrently_eq_score_witness :
    List.Perm [Sum.inl 0, Sum.inl 1, Sum.inl 1] exForest.Trees ∧
    AllSucceed exTraverse () exForest.Trees ∧
    ∃ value, ScoreConcurrently exTraverse exFormat exForest () "1"
        [Sum.inl 0, Sum.inl 1, Sum.inl 1] = some (value, none) ∧
      value = (Score exTraverse exFormat exForest () "1").1 :=
  have ⟨value, err, hrun, _, hsame⟩ :=
    scoreConcurrently_eq_score exTraverse exFormat exForest () "1"
      [Sum.inl 0, Sum.inl 1, Sum.inl 1] (by decide)
  ⟨by decide, exForest_allSucceed, value,
    by rw [hrun, (hsame exForest_allSucceed).2], (hsame exForest_allSucceed).1⟩

end Concurrent

/-! ## Empty forests, partial tallies and the range of `Score` -/

section Further

variable {Node Features Err F : Type}

theorem score_split (TraverseTree : Node → Features → F × Option Err)
    (FormatFloat : F → String) (rf : RandomForest Node) (features : Features)
    (label : String) (pre : List Node) (t : Node) (post : List Node) (e : Err)
    (hsplit : rf.Trees = pre ++ t :: post)
    (hpre : AllSucceed TraverseTree features pre)
    (ht : treeError TraverseTree features t = some e) :
    Score TraverseTree FormatFloat rf features label =
      (fdiv (votes TraverseTree FormatFloat features pre label) pre.length, some e) := by
  unfold Score
  rw [labelScores_split TraverseTree FormatFloat rf features pre t post e hsplit hpre ht]
  simp only [lookup_castVotes_nil, sumValues_castVotes_nil, List.length_map]

theorem get?_castVotes_nil_isSome (TraverseTree : Node → Features → F × Option Err)
    (FormatFloat : F → String) (features : Features) (trees : List Node) (k : String) :
    ((castVotes [] (trees.map (treeKey TraverseTree FormatFloat features))).get? k).isSome ↔
      ∃ tree ∈ trees, treeKey TraverseTree FormatFloat features tree = k := by
  simp only [get?_castVotes, List.mem_map]
  by_cases h : ∃ tree ∈ trees, treeKey TraverseTree FormatFloat features tree = k
  · simp [h]
  · simp [h, Tally.get?]

/-- C11: for a forest with zero trees, every feature set and every label,
`LabelScores` returns an empty tally and no error, and `Score` returns no error
while its numerator and its denominator are both 0: the value is the quotient
`0/0`, not an error. -/
theorem empty_forest_zero_over_zero (TraverseTree : Node → Features → F × Option Err)
    (FormatFloat : F → String) (rf : RandomForest Node) (features : Features)
    (label : String) (hempty : rf.Trees = []) :
    LabelScores TraverseTree FormatFloat rf features = ([], none) ∧
    (LabelScores TraverseTree FormatFloat rf features).1.lookup label = 0 ∧
    (LabelScores TraverseTree FormatFloat rf features).1.sumValues = 0 ∧
    Score TraverseTree FormatFloat rf features label = (fdiv 0 0, none) ∧
    fdiv 0 0 = GoFloat.nan := by
  have h : LabelScores TraverseTree FormatFloat rf features = ([], none) := by
    unfold LabelScores
    rw [hempty]
    rfl
  refine ⟨h, ?_, ?_, ?_, rfl⟩
  · rw [h]; rfl
  · rw [h]; rfl
  · unfold Score
    rw [h]
    rfl

theorem empty_forest_zero_over_zero_witness :
    ({ Trees := [] } : RandomForest (Nat ⊕ String)).Trees = [] ∧
    LabelScores exTraverse exFormat { Trees := [] } () = ([], none) ∧
    Score exTraverse exFormat { Trees := [] } () "1" = (GoFloat.nan, none) :=
  have h := empty_forest_zero_over_zero exTraverse exFormat { Trees := [] } () "1" rfl
  ⟨rfl, h.1, h.2.2.2.1⟩

/-- C12: when the first failing tree comes after the trees `pre` (it is at position
`pre.length`), `LabelScores` returns with its error the tally of exactly the trees
of `pre`, each counted once under its formatted leaf score, and no vote of the
trees at or after that position; `Score` returns with the error the ratio computed
from that partial tally. -/
theorem partial_tally_on_failure (TraverseTree : Node → Features → F × Option Err)
    (FormatFloat : F → String) (rf : RandomForest Node) (features : Features)
    (label : String) (pre : List Node) (t : Node) (post : List Node) (e : Err)
    (hsplit : rf.Trees = pre ++ t :: post)
    (hpre : AllSucceed TraverseTree features pre)
    (ht : treeError TraverseTree features t = some e) :
    (LabelScores TraverseTree FormatFloat rf features).2 = some e ∧
    (∀ k, (LabelScores TraverseTree FormatFloat rf features).1.lookup k =
      votes TraverseTree FormatFloat features pre k) ∧
    (∀ k, ((LabelScores TraverseTree FormatFloat rf features).1.get? k).isSome ↔
      ∃ tree ∈ pre, treeKey TraverseTree FormatFloat features tree = k) ∧
    (LabelScores TraverseTree FormatFloat rf features).1.sumValues = pre.length ∧
    Score TraverseTree FormatFloat rf features label =
      (fdiv ((LabelScores TraverseTree FormatFloat rf features).1.lookup label)
        (LabelScores TraverseTree FormatFloat rf features).1.sumValues, some e) ∧
    Score TraverseTree FormatFloat rf features label =
      (fdiv (votes TraverseTree FormatFloat features pre label) pre.length, some e) := by
  have hs := score_split TraverseTree FormatFloat rf features label pre t post e hsplit hpre ht
  rw [hs, labelScores_split TraverseTree FormatFloat rf features pre t post e hsplit hpre ht]
  refine ⟨rfl, fun k => lookup_castVotes_nil _ _ _ _ k,
    fun k => get?_castVotes_nil_isSome _ _ _ _ k, ?_, ?_, rfl⟩
  · simp only [sumValues_castVotes_nil, List.length_map]
  · simp only [lookup_castVotes_nil, sumValues_castVotes_nil, List.length_map]

theorem partial_tally_on_failure_witness :
    exFailing.Trees = [Sum.inl 1] ++ Sum.inr "NoMatchingBranch" :: [] ∧
    AllSucceed exTraverse () [Sum.inl 1] ∧
    treeError exTraverse () (Sum.inr "NoMatchingBranch") = some "NoMatchingBranch" ∧
    (LabelScores exTraverse exFormat exFailing ()).2 = some "NoMatchingBranch" ∧
    (LabelScores exTraverse exFormat exFailing ()).1.lookup "1" = 1 ∧
    (LabelScores exTraverse exFormat exFailing ()).1.sumValues = 1 ∧
    Score exTraverse exFormat exFailing () "1" = (GoFloat.fin 1, some "NoMatchingBranch") :=
  have h := partial_tally_on_failure exTraverse exFormat exFailing () "1"
    [Sum.inl 1] (Sum.inr "NoMatchingBranch") [] "NoMatchingBranch" rfl
    (by simp [AllSucceed, treeError, exTraverse]) rfl
  ⟨rfl, by simp [AllSucceed, treeError, exTraverse], rfl, h.1,
    (h.2.1 "1").trans (by decide), h.2.2.2.1,
    h.2.2.2.2.2.trans (by simp [votes, treeKey, exTraverse, exFormat, fdiv])⟩

/-- C13: for every non-empty forest and feature set on which every tree traverses
successfully, and every label, the value returned by `Score` is a number between
0 and 1 inclusive, and it is 1 exactly when every tree's formatted leaf score is
the label. -/
theorem score_between_zero_and_one (TraverseTree : Node → Features → F × Option Err)
    (FormatFloat : F → String) (rf : RandomForest Node) (features : Features)
    (label : String) (hne : rf.Trees ≠ [])
    (hok : AllSucceed TraverseTree features rf.Trees) :
    ∃ q : ℚ, Score TraverseTree FormatFloat rf features label = (GoFloat.fin q, none) ∧
      0 ≤ q ∧ q ≤ 1 ∧
      (q = 1 ↔ ∀ tree ∈ rf.Trees, treeKey TraverseTree FormatFloat features tree = label) := by
  have hlen : rf.Trees.length ≠ 0 := fun h => hne (List.length_eq_zero.mp h)
  have hpos : (0 : ℚ) < (rf.Trees.length : ℚ) := by
    exact_mod_cast Nat.pos_of_ne_zero hlen
  have hle : votes TraverseTree FormatFloat features rf.Trees label ≤ rf.Trees.length :=
    List.countP_le_length _
  refine ⟨(votes TraverseTree FormatFloat features rf.Trees label : ℚ) /
    (rf.Trees.length : ℚ), ?_, ?_, ?_, ?_⟩
  · rw [score_ok TraverseTree FormatFloat rf features label hok]
    simp [fdiv, hlen]
  · exact div_nonneg (Nat.cast_nonneg _) hpos.le
  · rw [div_le_one hpos]
    exact_mod_cast hle
  · rw [div_eq_one_iff_eq hpos.ne']
    rw [Nat.cast_inj]
    unfold votes
    rw [List.countP_eq_length]
    simp

theorem score_between_zero_and_one_witness :
    exForest.Trees ≠ [] ∧ AllSucceed exTraverse () exForest.Trees ∧
    ∃ q : ℚ, Score exTraverse exFormat exForest () "1" = (GoFloat.fin q, none) ∧
      0 ≤ q ∧ q ≤ 1 :=
  have ⟨q, hq, h0, h1, _⟩ := score_between_zero_and_one exTraverse exFormat exForest () "1"
    (by simp [exForest]) exForest_allSucceed
  ⟨by simp [exForest], exForest_allSucceed, q, hq, h0, h1⟩

end Further

/-! ## Scores as a distribution, and independence of the tree order -/

section Distribution

variable {Node Features Err F : Type}

theorem Tally.map_lookup_keys (m : Tally) (h : m.keys.Nodup) :
    m.keys.map (Tally.lookup m) = m.map Prod.snd := by
  induction m with
  | nil => rfl
  | cons kv rest ih =>
    obtain ⟨a, b⟩ := kv
    have hnd : a ∉ Tally.keys rest ∧ (Tally.keys rest).Nodup := by
      simpa [Tally.keys] using h
    have hrest : (Tally.keys rest).map (Tally.lookup ((a, b) :: rest)) =
        (Tally.keys rest).map (Tally.lookup rest) := by
      apply List.map_congr_left
      intro k hk
      have hak : ¬ a = k := fun hEq => hnd.1 (hEq ▸ hk)
      simp [Tally.lookup_cons, hak]
    have ih' := ih hnd.2
    simp only [Tally.keys] at hrest ih'
    simp only [Tally.keys, List.map_cons, Tally.lookup_cons, if_true, hrest, ih']

theorem sum_map_div (l : List Nat) (n : ℚ) :
    (l.map (fun (v : Nat) => (v : ℚ) / n)).sum = ((l.sum : Nat) : ℚ) / n := by
  induction l with
  | nil => simp
  | cons a rest ih => simp [ih, add_div]

/-- The exact vote shares: for a non-empty forest whose trees all traverse
successfully, the keys of the tally are distinct, `Score` returns for each key the
quotient of its count by the number of trees, without error, and these quotients
lie in `[0, 1]` and sum to exactly 1. -/
theorem vote_shares_sum_to_one (TraverseTree : Node → Features → F × Option Err)
    (FormatFloat : F → String) (rf : RandomForest Node) (features : Features)
    (hne : rf.Trees ≠ []) (hok : AllSucceed TraverseTree features rf.Trees) :
    (LabelScores TraverseTree FormatFloat rf features).1.keys.Nodup ∧
    ∃ shares : List ℚ,
      (LabelScores TraverseTree FormatFloat rf features).1.keys.map
          (fun k => Score TraverseTree FormatFloat rf features k) =
        shares.map (fun q => (GoFloat.fin q, none)) ∧
      shares.sum = 1 ∧ ∀ q ∈ shares, 0 ≤ q ∧ q ≤ 1 := by
  have hlen : rf.Trees.length ≠ 0 := fun h => hne (List.length_eq_zero.mp h)
  have hlenq : (rf.Trees.length : ℚ) ≠ 0 := by exact_mod_cast hlen
  have hpos : (0 : ℚ) < (rf.Trees.length : ℚ) := by
    exact_mod_cast Nat.pos_of_ne_zero hlen
  have hnodup : (castVotes []
      (rf.Trees.map (treeKey TraverseTree FormatFloat features))).keys.Nodup :=
    nodup_keys_castVotes _ [] (by simp [Tally.keys])
  have hsum : ((castVotes [] (rf.Trees.map
      (treeKey TraverseTree FormatFloat features))).map Prod.snd).sum = rf.Trees.length := by
    rw [← Tally.sumValues_eq, sumValues_castVotes_nil, List.length_map]
  rw [labelScores_ok TraverseTree FormatFloat rf features hok]
  refine ⟨hnodup, ((castVotes [] (rf.Trees.map
    (treeKey TraverseTree FormatFloat features))).map Prod.snd).map
      (fun (v : Nat) => (v : ℚ) / (rf.Trees.length : ℚ)), ?_, ?_, ?_⟩
  · rw [← Tally.map_lookup_keys _ hnodup, List.map_map, List.map_map]
    apply List.map_congr_left
    intro k _
    rw [score_ok TraverseTree FormatFloat rf features k hok]
    simp [fdiv, hlen, lookup_castVotes_nil]
  · rw [sum_map_div, hsum]
    exact div_self hlenq
  · intro q hq
    obtain ⟨v, hv, rfl⟩ := List.mem_map.mp hq
    have hle : v ≤ rf.Trees.length :=
      hsum ▸ List.single_le_sum (fun x _ => Nat.zero_le x) v hv
    constructor
    · exact div_nonneg (Nat.cast_nonneg _) hpos.le
    · rw [div_le_one hpos]
      exact_mod_cast hle

/-- C14, as stated, fails: on the forest of three trees yielding 1.0, 1.0, 0.0 the
tally has the keys `"1"` and `"0"`, `Score` returns for them the `float64` values
`6004799503160661 / 2^53` and `6004799503160661 / 2^54`, and their exact sum is
`1 - 2^-54`, not 1. -/
theorem score_values_sum_below_one :
    exForest.Trees ≠ [] ∧ AllSucceed exTraverse () exForest.Trees ∧
    (LabelScores exTraverse exFormat exForest ()).1.keys = ["1", "0"] ∧
    (Score exTraverse exFormat exForest () "1").1.value =
      some (6004799503160661 / 9007199254740992) ∧
    (Score exTraverse exFormat exForest () "0").1.value =
      some (6004799503160661 / 18014398509481984) ∧
    (6004799503160661 / 9007199254740992 + 6004799503160661 / 18014398509481984 : ℚ) =
      1 - 1 / 2 ^ 54 ∧
    (6004799503160661 / 9007199254740992 + 6004799503160661 / 18014398509481984 : ℚ) ≠ 1 := by
  have h₁ : Score exTraverse exFormat exForest () "1" = (GoFloat.fin (2 / 3), none) := by
    simp [Score, LabelScores, labelScoresLoop, exForest, exTraverse, exFormat, Tally.incr,
      Tally.set, Tally.lookup, Tally.get?, Tally.sumValues, fdiv]
  have h₀ : Score exTraverse exFormat exForest () "0" = (GoFloat.fin (1 / 3), none) := by
    simp [Score, LabelScores, labelScoresLoop, exForest, exTraverse, exFormat, Tally.incr,
      Tally.set, Tally.lookup, Tally.get?, Tally.sumValues, fdiv]
  have r₁ : roundFloat64 (2 / 3) = 6004799503160661 / 9007199254740992 := by
    rw [roundFloat64_eq_of_lt_half (2 / 3) (-1) 6004799503160661 (by norm_num) (by norm_num)
      (by norm_num) (by norm_num)]
    norm_num
  have r₀ : roundFloat64 (1 / 3) = 6004799503160661 / 18014398509481984 := by
    rw [roundFloat64_eq_of_lt_half (1 / 3) (-2) 6004799503160661 (by norm_num) (by norm_num)
      (by norm_num) (by norm_num)]
    norm_num
  refine ⟨by simp [exForest], exForest_allSucceed, by decide, ?_, ?_, by norm_num,
    by norm_num⟩
  · rw [h₁]
    simp only [GoFloat.value, r₁]
  · rw [h₀]
    simp only [GoFloat.value, r₀]

/-- C14, amended: for every non-empty forest and feature set on which every tree
traverses successfully, the keys of the `LabelScores` tally are distinct and their
exact vote shares (count divided by number of trees) sum to exactly 1; `Score`
returns for each key, without error, the `float64` nearest to its share, and the
exact sum of these returned values differs from 1 by at most the number of keys
times `2^-54`. -/
theorem score_values_sum_near_one (TraverseTree : Node → Features → F × Option Err)
    (FormatFloat : F → String) (rf : RandomForest Node) (features : Features)
    (hne : rf.Trees ≠ []) (hok : AllSucceed TraverseTree features rf.Trees) :
    (LabelScores TraverseTree FormatFloat rf features).1.keys.Nodup ∧
    ∃ shares : List ℚ,
      shares.sum = 1 ∧
      (LabelScores TraverseTree FormatFloat rf features).1.keys.map
          (fun k => Score TraverseTree FormatFloat rf features k) =
        shares.map (fun q => (GoFloat.fin q, none)) ∧
      (LabelScores TraverseTree FormatFloat rf features).1.keys.map
          (fun k => (Score TraverseTree FormatFloat rf features k).1.value) =
        shares.map (fun q => some (roundFloat64 q)) ∧
      |(shares.map roundFloat64).sum - 1| ≤
        ((LabelScores TraverseTree FormatFloat rf features).1.keys.length : ℚ) / 2 ^ 54 := by
  obtain ⟨hnodup, shares, hmap, hsum, hunit⟩ :=
    vote_shares_sum_to_one TraverseTree FormatFloat rf features hne hok
  refine ⟨hnodup, shares, hsum, hmap, ?_, ?_⟩
  · have h := congrArg (List.map (fun p : GoFloat × Option Err => p.1.value)) hmap
    simpa [List.map_map, Function.comp, GoFloat.value] using h
  · have hlen : (LabelScores TraverseTree FormatFloat rf features).1.keys.length =
        shares.length := by
      have h := congrArg List.length hmap
      simpa using h
    rw [hlen, ← hsum]
    exact sum_roundFloat64_error shares hunit

theorem score_values_sum_near_one_witness :
    exForest.Trees ≠ [] ∧ AllSucceed exTraverse () exForest.Trees ∧
    (LabelScores exTraverse exFormat exForest ()).1.keys = ["1", "0"] ∧
    ∃ shares : List ℚ,
      shares.sum = 1 ∧
      [Score exTraverse exFormat exForest () "1", Score exTraverse exFormat exForest () "0"] =
        shares.map (fun q => (GoFloat.fin q, none)) ∧
      [(Score exTraverse exFormat exForest () "1").1.value,
        (Score exTraverse exFormat exForest () "0").1.value] =
        shares.map (fun q => some (roundFloat64 q)) ∧
      |(shares.map roundFloat64).sum - 1| ≤ ((2 : ℕ) : ℚ) / 2 ^ 54 :=
  ⟨by simp [exForest], exForest_allSucceed, by decide,
   (score_values_sum_near_one exTraverse exFormat exForest () (by simp [exForest])
     exForest_allSucceed).2⟩

/-- C15: for every two forests whose tree lists are permutations of each other and
every feature set on which every tree traverses successfully, `LabelScores` returns
no error and the same tally, key for key and count for count, and `Score` returns
the same result for every label. -/
theorem tree_order_irrelevant (TraverseTree : Node → Features → F × Option Err)
    (FormatFloat : F → String) (rf₁ rf₂ : RandomForest Node) (features : Features)
    (hperm : rf₁.Trees.Perm rf₂.Trees)
    (hok : AllSucceed TraverseTree features rf₁.Trees) :
    (LabelScores TraverseTree FormatFloat rf₁ features).2 = none ∧
    (LabelScores TraverseTree FormatFloat rf₂ features).2 = none ∧
    (∀ k, (LabelScores TraverseTree FormatFloat rf₁ features).1.get? k =
      (LabelScores TraverseTree FormatFloat rf₂ features).1.get? k) ∧
    (∀ label, Score TraverseTree FormatFloat rf₁ features label =
      Score TraverseTree FormatFloat rf₂ features label) := by
  have hok₂ : AllSucceed TraverseTree features rf₂.Trees :=
    allSucceed_perm TraverseTree features rf₂.Trees rf₁.Trees hperm.symm hok
  rw [labelScores_ok TraverseTree FormatFloat rf₁ features hok,
    labelScores_ok TraverseTree FormatFloat rf₂ features hok₂]
  refine ⟨rfl, rfl, fun k => get?_castVotes_perm _ _ (hperm.map _) k, fun label => ?_⟩
  rw [score_ok TraverseTree FormatFloat rf₁ features label hok,
    score_ok TraverseTree FormatFloat rf₂ features label hok₂,
    votes_perm TraverseTree FormatFloat features rf₁.Trees rf₂.Trees hperm label,
    hperm.length_eq]

theorem tree_order_irrelevant_witness :
    List.Perm exForest.Trees [Sum.inl 0, Sum.inl 1, Sum.inl 1] ∧
    AllSucceed exTraverse () exForest.Trees ∧
    LabelScores exTraverse exFormat exForest () = ([("1", 2), ("0", 1)], none) ∧
    LabelScores exTraverse exFormat { Trees := [Sum.inl 0, Sum.inl 1, Sum.inl 1] } () =
      ([("0", 1), ("1", 2)], none) ∧
    Score exTraverse exFormat exForest () "1" =
      Score exTraverse exFormat { Trees := [Sum.inl 0, Sum.inl 1, Sum.inl 1] } () "1" :=
  ⟨by decide, exForest_allSucceed, by decide, by decide,
   (tree_order_irrelevant exTraverse exFormat exForest
     { Trees := [Sum.inl 0, Sum.inl 1, Sum.inl 1] } () (by decide)
     exForest_allSucceed).2.2.2 "1"⟩

end Distribution

end goscore
